import Mathlib

/-!
Verification of the zeft state-container library (store engine, slice
composer, retry executor, stale-while-revalidate cache, prioritized
effect scheduler, reducer+effect coordinator).

JavaScript objects and `Map`s are modelled as association lists
(`String`-keyed, unique keys is the ambient JS-object invariant);
property assignment, `Object.assign`, and `Map.set/get/delete` are
embedded below.  All definitions are translated from the TypeScript
source (`src/store.ts`, `src/react/hooks/advanced-hooks/*.ts`).
-/

namespace Zeft

/-- A JavaScript object / `Map` with string keys: an association list in
property-insertion order. -/
abbrev JsObj (V : Type) := List (String × V)

/-- Property read (`o[k]` / `map.get(k)`): the entry for `k`, if present. -/
def objGet {V : Type} (o : JsObj V) (k : String) : Option V :=
  (o.find? (fun p => decide (p.1 = k))).map Prod.snd

/-- Property write (`o[k] = v` / `map.set(k, v)`): replaces the existing
entry for `k` in place, appends a new entry otherwise (JS enumeration
order: existing keys keep their position, new keys go last). -/
def objSet {V : Type} : JsObj V → String → V → JsObj V
  | [], k, v => [(k, v)]
  | p :: rest, k, v => if p.1 = k then (k, v) :: rest else p :: objSet rest k v

/-- `delete o[k]` / `map.delete(k)`. -/
def objDelete {V : Type} (o : JsObj V) (k : String) : JsObj V :=
  o.filter (fun p => decide (p.1 ≠ k))

/-- `Object.assign(target, src)`: copies every property of `src` onto
`target`, in `src`'s enumeration order. -/
def objectAssign {V : Type} (target src : JsObj V) : JsObj V :=
  src.foldl (fun acc p => objSet acc p.1 p.2) target

/-- Left-biased choice on `Option` (first defined value wins). -/
def orr {V : Type} : Option V → Option V → Option V
  | some v, _ => some v
  | none, b => b

/-- The value of the LAST entry for `k`, if any (the entry that survives
when a list with duplicate keys is assigned onto an object). -/
def lastGet {V : Type} : JsObj V → String → Option V
  | [], _ => none
  | p :: rest, k => orr (lastGet rest k) (if p.1 = k then some p.2 else none)

/-- The keys of `o` are pairwise distinct (the JS-object invariant). -/
abbrev keysNodup {V : Type} (o : JsObj V) : Prop := (o.map Prod.fst).Nodup

theorem keysNodup_cons {V : Type} {p : String × V} {rest : JsObj V}
    (h : keysNodup (p :: rest)) : p.1 ∉ rest.map Prod.fst ∧ keysNodup rest := by
  rw [keysNodup, List.map_cons, List.nodup_cons] at h
  exact h

theorem orr_assoc {V : Type} (a b c : Option V) :
    orr (orr a b) c = orr a (orr b c) := by
  cases a <;> cases b <;> rfl

theorem objGet_nil {V : Type} (k : String) : objGet ([] : JsObj V) k = none := rfl

theorem objGet_cons {V : Type} (p : String × V) (rest : JsObj V) (k : String) :
    objGet (p :: rest) k = if p.1 = k then some p.2 else objGet rest k := by
  by_cases h : p.1 = k <;> simp [objGet, List.find?_cons, h]

theorem objGet_objSet {V : Type} (o : JsObj V) (k k' : String) (v : V) :
    objGet (objSet o k v) k' = if k' = k then some v else objGet o k' := by
  induction o with
  | nil =>
    by_cases h : k' = k
    · simp [objSet, objGet_cons, h]
    · have h2 : ¬ k = k' := fun hk => h hk.symm
      simp [objSet, objGet_cons, h, h2]
  | cons p rest ih =>
    by_cases hp : p.1 = k
    · by_cases h : k' = k
      · simp [objSet, hp, objGet_cons, h]
      · have h2 : ¬ k = k' := fun hk => h hk.symm
        have h3 : ¬ p.1 = k' := by rw [hp]; exact h2
        simp [objSet, hp, objGet_cons, h, h2, h3]
    · by_cases h : k' = k
      · have h3 : ¬ p.1 = k' := by rw [h]; exact hp
        subst h
        simp [objSet, hp, objGet_cons, h3, ih]
      · simp [objSet, hp, objGet_cons, ih, h]

theorem objGet_objectAssign {V : Type} (s : JsObj V) (t : JsObj V) (k : String) :
    objGet (objectAssign t s) k = orr (lastGet s k) (objGet t k) := by
  induction s generalizing t with
  | nil => simp [objectAssign, lastGet, orr]
  | cons p rest ih =>
    have hunf : objectAssign t (p :: rest) = objectAssign (objSet t p.1 p.2) rest := rfl
    rw [hunf, ih, objGet_objSet]
    cases hl : lastGet rest k with
    | some v => simp [lastGet, hl, orr]
    | none =>
      by_cases h : p.1 = k
      · simp [lastGet, hl, orr, h]
      · have : ¬ k = p.1 := fun hk => h hk.symm
        simp [lastGet, hl, orr, h, this]

theorem lastGet_eq_none {V : Type} (o : JsObj V) (k : String)
    (h : ∀ p ∈ o, p.1 ≠ k) : lastGet o k = none := by
  induction o with
  | nil => rfl
  | cons p rest ih =>
    have hp : p.1 ≠ k := h p (List.mem_cons_self p rest)
    have hrest := ih (fun q hq => h q (List.mem_cons_of_mem p hq))
    simp [lastGet, hrest, orr, hp]

theorem lastGet_eq_objGet {V : Type} (o : JsObj V) (k : String)
    (h : keysNodup o) : lastGet o k = objGet o k := by
  induction o with
  | nil => rfl
  | cons p rest ih =>
    have hnot : p.1 ∉ rest.map Prod.fst := (keysNodup_cons h).1
    have hrest : keysNodup rest := (keysNodup_cons h).2
    by_cases hp : p.1 = k
    · have : ∀ q ∈ rest, q.1 ≠ k := by
        intro q hq hqk
        exact hnot (by
          rw [hp, ← hqk]
          exact List.mem_map_of_mem Prod.fst hq)
      simp [lastGet, lastGet_eq_none rest k this, orr, hp, objGet_cons]
    · simp [lastGet, ih hrest, orr, hp, objGet_cons]
      cases objGet rest k <;> rfl

theorem objSet_append_of_absent {V : Type} (t : JsObj V) (k : String) (v : V)
    (h : ∀ q ∈ t, q.1 ≠ k) : objSet t k v = t ++ [(k, v)] := by
  induction t with
  | nil => rfl
  | cons p rest ih =>
    have hp : p.1 ≠ k := h p (List.mem_cons_self p rest)
    simp [objSet, hp, ih (fun q hq => h q (List.mem_cons_of_mem p hq))]

theorem objectAssign_append_of_disjoint {V : Type} (s : JsObj V) :
    ∀ t : JsObj V, keysNodup s → (∀ p ∈ s, ∀ q ∈ t, q.1 ≠ p.1) →
      objectAssign t s = t ++ s := by
  induction s with
  | nil => intro t _ _; simp [objectAssign]
  | cons p rest ih =>
    intro t hsnd hdisj
    have hnot : p.1 ∉ rest.map Prod.fst := (keysNodup_cons hsnd).1
    have hrest : keysNodup rest := (keysNodup_cons hsnd).2
    have hunf : objectAssign t (p :: rest) = objectAssign (objSet t p.1 p.2) rest := rfl
    rw [hunf, objSet_append_of_absent t p.1 p.2
      (fun q hq => hdisj p (List.mem_cons_self p rest) q hq)]
    have hstep : objectAssign (t ++ [(p.1, p.2)]) rest = (t ++ [(p.1, p.2)]) ++ rest := by
      apply ih (t ++ [(p.1, p.2)]) hrest
      intro x hx q hq
      rcases List.mem_append.mp hq with hq | hq
      · exact hdisj x (List.mem_cons_of_mem p hx) q hq
      · have hqp : q = (p.1, p.2) := List.mem_singleton.mp hq
        rw [hqp]
        intro hcontra
        exact hnot (by
          rw [hcontra]
          exact List.mem_map_of_mem Prod.fst hx)
    rw [hstep]
    simp

theorem objectAssign_nil_left {V : Type} (s : JsObj V) (h : keysNodup s) :
    objectAssign [] s = s := by
  have := objectAssign_append_of_disjoint s [] h (by intro p _ q hq; cases hq)
  simpa using this

/-! ## State container (`src/store.ts` / `src/unnamed/part_004`, `createStore`)

The `state` variable of `createStore` holds either an object or (after a
`replace`-mode update whose updater returned `undefined`) the value
`undefined`.  The updater result is an object, `null`, or `undefined`. -/

/-- A value the `state` variable of `createStore` can hold. -/
inductive StateVal (V : Type) where
  | undef
  | obj (o : JsObj V)
deriving DecidableEq

/-- A value returned by a `setState` updater. -/
inductive UpdResult (V : Type) where
  | null
  | undef
  | obj (o : JsObj V)
deriving DecidableEq

/-- The properties `Object.assign` copies from a value: none for
`undefined`/`null` sources (they are skipped), the object's own
properties otherwise. -/
def StateVal.props {V : Type} : StateVal V → JsObj V
  | .undef => []
  | .obj o => o

/-- Same for an updater result used as an `Object.assign` source. -/
def UpdResult.props {V : Type} : UpdResult V → JsObj V
  | .null => []
  | .undef => []
  | .obj o => o

/-- The updater result stored verbatim into `state` in replace mode
(`state = nextState as T`).  The `null` case is unreachable: `setState`
short-circuits on `null` before assigning. -/
def UpdResult.asState {V : Type} : UpdResult V → StateVal V
  | .null => .undef
  | .undef => .undef
  | .obj o => .obj o

/-- The closure state of one `createStore` instance: the `state`
variable and the `subscribers` set (iteration in insertion order,
elements identified by subscriber id). -/
structure StoreState (V : Type) where
  state : StateVal V
  subscribers : List Nat
deriving DecidableEq

/-- `setState(partial, replace)` with a function `partial` (the updater).
Returns the updated closure state together with the notification pass:
the list of `(subscriber, state)` calls made by
`subscribers.forEach(subscriber => subscriber(state))`.

Source (`createStore`):
`const nextState = typeof partial === 'function' ? partial(state) : partial;
 if (nextState !== null) {
   state = replace ? nextState as T : Object.assign({}, state, nextState);
   subscribers.forEach(subscriber => subscriber(state)); }` -/
def setState {V : Type} (st : StoreState V) (updater : StateVal V → UpdResult V)
    (replace : Bool) : StoreState V × List (Nat × StateVal V) :=
  match updater st.state with
  | .null => (st, [])
  | ns =>
    let newState : StateVal V :=
      if replace then ns.asState
      else .obj (objectAssign (objectAssign [] st.state.props) ns.props)
    ({ st with state := newState }, st.subscribers.map (fun s => (s, newState)))

/-! ## Slice composer (`src/unnamed/part_004`, `combineSlices`) -/

/-- `combineSlices(slices)`: returns an initializer that, given
`(set, get)`, iterates the record's keys in insertion order and
`Object.assign`s each slice's fragment onto the accumulator.

Source:
`return (set, get) => {
   const createState = {};
   for (const key in slices) { const slice = slices[key];
     Object.assign(createState, slice(set, get)); }
   return createState as T; }` -/
def combineSlices {St Gt V : Type} (slices : JsObj (St → Gt → JsObj V)) :
    St → Gt → JsObj V :=
  fun set get =>
    slices.foldl (fun createState kv => objectAssign createState (kv.2 set get)) []

/-- Right-biased merge of a list of fragments: the LAST fragment that
defines `k` wins (spec: later entries overwrite earlier ones). -/
def lastDefined {V : Type} : List (JsObj V) → String → Option V
  | [], _ => none
  | f :: rest, k => orr (lastDefined rest k) (lastGet f k)

theorem objGet_foldl_objectAssign {V : Type} (frags : List (JsObj V))
    (acc : JsObj V) (k : String) :
    objGet (frags.foldl objectAssign acc) k = orr (lastDefined frags k) (objGet acc k) := by
  induction frags generalizing acc with
  | nil => simp [lastDefined, orr]
  | cons f rest ih =>
    have hunf : (f :: rest).foldl objectAssign acc = rest.foldl objectAssign (objectAssign acc f) := rfl
    rw [hunf, ih, objGet_objectAssign]
    show orr (lastDefined rest k) (orr (lastGet f k) (objGet acc k))
        = orr (orr (lastDefined rest k) (lastGet f k)) (objGet acc k)
    rw [orr_assoc]

/-! ## Theorems for the state container claims -/

/-- C1: for every state `S` and every partial update `P`, `setState`
with an updater returning `P` in default (non-replace) mode sets the
state to the shallow merge `{...S, ...P}` (top-level keys only: `P`'s
value wherever `P` defines the key, `S`'s value otherwise); with
`replace = true` the state becomes exactly `P`. -/
theorem setState_merge_and_replace {V : Type} (S P : JsObj V) (subs : List Nat)
    (hS : keysNodup S) (hP : keysNodup P) :
    (setState ⟨.obj S, subs⟩ (fun _ => .obj P) false).1.state = .obj (objectAssign S P)
    ∧ (∀ k, objGet (objectAssign S P) k = orr (objGet P k) (objGet S k))
    ∧ (setState ⟨.obj S, subs⟩ (fun _ => .obj P) true).1.state = .obj P := by
  refine ⟨?_, ?_, rfl⟩
  · show StateVal.obj (objectAssign (objectAssign [] S) P) = .obj (objectAssign S P)
    rw [objectAssign_nil_left S hS]
  · intro k
    rw [objGet_objectAssign, lastGet_eq_objGet P k hP]

/-- Witness for C1 at concrete `S`, `P`. -/
theorem setState_merge_and_replace_witness :
    (setState ⟨.obj [("a", 1), ("b", 2)], [0]⟩
        (fun _ => .obj [("b", 3), ("c", 4)]) false).1.state
      = .obj (objectAssign [("a", 1), ("b", 2)] [("b", 3), ("c", 4)])
    ∧ (∀ k, objGet (objectAssign [("a", (1 : Nat)), ("b", 2)] [("b", 3), ("c", 4)]) k
        = orr (objGet [("b", 3), ("c", 4)] k) (objGet [("a", 1), ("b", 2)] k))
    ∧ (setState ⟨.obj [("a", 1), ("b", 2)], [0]⟩
        (fun _ => .obj [("b", 3), ("c", 4)]) true).1.state = .obj [("b", 3), ("c", 4)] :=
  setState_merge_and_replace [("a", 1), ("b", 2)] [("b", 3), ("c", 4)] [0]
    (by decide) (by decide)

/-- C2: `setState` with an updater returning `null` is a no-op: the
closure state is unchanged (no assignment to `state` at all) and the
notification pass is empty. -/
theorem setState_null_noop {V : Type} (st : StoreState V) (replace : Bool) :
    setState st (fun _ => .null) replace = (st, []) := rfl

/-- C9: only `null` is the no-op sentinel — an updater returning
`undefined` is a real update: in default merge mode the `state` variable
is reassigned to a fresh shallow copy (`Object.assign({}, state, undefined)`)
equal to the old state and every subscriber is notified exactly once with
it; with `replace = true` the state becomes `undefined`. -/
theorem setState_undefined_updates {V : Type} (S : JsObj V) (subs : List Nat)
    (hS : keysNodup S) (hsubs : subs.Nodup) :
    (setState ⟨.obj S, subs⟩ (fun _ => .undef) false).1.state = .obj S
    ∧ (setState ⟨.obj S, subs⟩ (fun _ => .undef) false).2
        = subs.map (fun s => (s, StateVal.obj S))
    ∧ (∀ i ∈ subs,
        ((setState ⟨.obj S, subs⟩ (fun _ => .undef) false).2.map Prod.fst).count i = 1)
    ∧ (setState ⟨.obj S, subs⟩ (fun _ => .undef) true).1.state = .undef := by
  have hstate : (setState ⟨.obj S, subs⟩ (fun _ => .undef) false).1.state = .obj S := by
    show StateVal.obj (objectAssign (objectAssign [] S) []) = .obj S
    rw [objectAssign_nil_left S hS]
    rfl
  have hnotif : (setState ⟨StateVal.obj S, subs⟩ (fun _ => .undef) false).2
      = subs.map (fun s => (s, StateVal.obj S)) := by
    show subs.map (fun s => (s, (setState ⟨StateVal.obj S, subs⟩ (fun _ => .undef) false).1.state)) = _
    rw [hstate]
  refine ⟨hstate, hnotif, ?_, rfl⟩
  intro i hi
  have hmap : ((setState ⟨StateVal.obj S, subs⟩ (fun _ => .undef) false).2.map Prod.fst) = subs := by
    rw [hnotif, List.map_map]
    exact List.map_id'' (fun _ => rfl) subs
  rw [hmap]
  exact List.count_eq_one_of_mem hsubs hi

/-- Witness for C9 at a concrete state and subscriber set. -/
theorem setState_undefined_updates_witness :
    (setState ⟨.obj [("a", 1)], [7, 8]⟩ (fun _ => .undef) false).1.state = .obj [("a", (1 : Nat))]
    ∧ (setState ⟨.obj [("a", 1)], [7, 8]⟩ (fun _ => .undef) false).2
        = [7, 8].map (fun s => (s, StateVal.obj [("a", (1 : Nat))]))
    ∧ (∀ i ∈ [7, 8],
        ((setState ⟨.obj [("a", (1 : Nat))], [7, 8]⟩ (fun _ => .undef) false).2.map Prod.fst).count i = 1)
    ∧ (setState ⟨.obj [("a", (1 : Nat))], [7, 8]⟩ (fun _ => .undef) true).1.state = .undef :=
  setState_undefined_updates [("a", 1)] [7, 8] (by decide) (by decide)

/-- C7: the initializer returned by `combineSlices`, invoked with
`(set, get)`, calls every slice with that same `(set, get)` pair (the
result is the fold of exactly the fragments `slice(set, get)`, in the
record's insertion order) and shallow-merges the fragments into one
object, later entries overwriting earlier ones on key collision. -/
theorem combineSlices_merge {St Gt V : Type} (slices : JsObj (St → Gt → JsObj V))
    (set : St) (get : Gt) :
    combineSlices slices set get
      = (slices.map (fun kv => kv.2 set get)).foldl objectAssign []
    ∧ ∀ k, objGet (combineSlices slices set get) k
        = lastDefined (slices.map (fun kv => kv.2 set get)) k := by
  have hfold : combineSlices slices set get
      = (slices.map (fun kv => kv.2 set get)).foldl objectAssign [] := by
    show slices.foldl (fun createState kv => objectAssign createState (kv.2 set get)) []
        = (slices.map (fun kv => kv.2 set get)).foldl objectAssign []
    rw [List.foldl_map]
  refine ⟨hfold, ?_⟩
  intro k
  rw [hfold, objGet_foldl_objectAssign]
  cases lastDefined (slices.map (fun kv => kv.2 set get)) k <;> rfl

/-! ## Retry executor (`src/react/hooks/advanced-hooks/useCancellable.ts`, `useRetry`)

`createRetrySchedule` builds an effect-ts `Schedule`:
`strategy === "exponential" ? Schedule.exponential(duration)
 : strategy === "linear" ? Schedule.spaced(duration)
 : Schedule.fixed(duration)`
composed with `Schedule.recurs(maxAttempts)` (`maxAttempts = maxRetries`),
and `executeWithRetries` runs `Effect.retry` with it.  The delay
functions below embed the effect-ts schedule semantics: the argument is
the number of recurrences so far (0-based), i.e. the delay before the
`(n+1)`-th retry. -/

inductive RetryStrategy where
  | exponential
  | linear
  | constant
deriving DecidableEq

/-- `Schedule.exponential(base)` (factor 2): delay `base * 2^n` before
the retry following `n` prior recurrences. -/
def scheduleExponentialDelay (base : Nat) (n : Nat) : Nat := base * 2 ^ n

/-- `Schedule.spaced(base)`: a constant delay of `base` between
recurrences, independent of the recurrence count. -/
def scheduleSpacedDelay (base : Nat) (_n : Nat) : Nat := base

/-- `Schedule.fixed(base)`: recurrence on a fixed interval of `base`
(equal to a constant delay of `base` when attempts are instantaneous). -/
def scheduleFixedDelay (base : Nat) (_n : Nat) : Nat := base

/-- The delay sequence of the schedule built by `createRetrySchedule`. -/
def createRetrySchedule (strategy : RetryStrategy) (baseDelay : Nat) : Nat → Nat :=
  match strategy with
  | .exponential => scheduleExponentialDelay baseDelay
  | .linear => scheduleSpacedDelay baseDelay
  | .constant => scheduleFixedDelay baseDelay

/-- `Effect.retry` with `Schedule.recurs(maxAttempts)` composed in:
run attempt `k`; on failure, retry (after the schedule's delay) while
the remaining retry budget `fuel` is positive; when the budget is
exhausted the LAST attempt's error is surfaced (stored via `setError`
and passed to `onError` in `executeWithRetries`).  Returns the final
result together with the total number of attempts executed. -/
def retryRun {A E : Type} (attempt : Nat → Except E A) : Nat → Nat → Except E A × Nat
  | k, fuel =>
    match attempt k with
    | .ok a => (.ok a, k + 1)
    | .error e =>
      match fuel with
      | 0 => (.error e, k + 1)
      | fuel' + 1 => retryRun attempt (k + 1) fuel'

/-- `executeWithRetries`: first try is attempt 0, then up to `maxRetries`
retries. -/
def executeWithRetries {A E : Type} (attempt : Nat → Except E A) (maxRetries : Nat) :
    Except E A × Nat :=
  retryRun attempt 0 maxRetries

theorem retryRun_all_fail {A E : Type} (es : Nat → E) :
    ∀ (fuel k : Nat),
      retryRun (A := A) (fun j => .error (es j)) k fuel = (.error (es (k + fuel)), k + fuel + 1) := by
  intro fuel
  induction fuel with
  | zero => intro k; simp [retryRun]
  | succ fuel' ih =>
    intro k
    show retryRun (fun j => .error (es j)) (k + 1) fuel' = _
    rw [ih (k + 1)]
    have h1 : k + 1 + fuel' = k + (fuel' + 1) := by omega
    rw [h1]

/-- C3 counterexample: the claim asserts the delay before retry attempt
`n = 2` under `retryStrategy = 'linear'`, `baseDelay = 1000` is
`1000 * 2 = 2000`; the code (`Schedule.spaced`) waits `1000`. -/
theorem createRetrySchedule_linear_counterexample :
    createRetrySchedule RetryStrategy.linear 1000 (2 - 1) ≠ 1000 * 2 := by decide

/-- C3 (amended): with `baseDelay = 1000`, the delay before retry
attempt `n` (1-indexed) is `1000 * 2^(n-1)` for `'exponential'`, the
constant `1000` for `'linear'` (`Schedule.spaced`: fixed spacing, not
`1000 * n`), and `1000` for `'constant'`; after `maxRetries` retries the
sequence stops (exactly `maxRetries + 1` attempts run) and the error
surfaced via `onError` and stored equals the last attempt's error. -/
theorem createRetrySchedule_delays_and_exhaustion {A : Type} {E : Type} (es : Nat → E)
    (maxRetries n : Nat) (hn : 1 ≤ n) :
    createRetrySchedule RetryStrategy.exponential 1000 (n - 1) = 1000 * 2 ^ (n - 1)
    ∧ createRetrySchedule RetryStrategy.linear 1000 (n - 1) = 1000
    ∧ createRetrySchedule RetryStrategy.constant 1000 (n - 1) = 1000
    ∧ executeWithRetries (A := A) (fun j => .error (es j)) maxRetries
        = (.error (es maxRetries), maxRetries + 1) := by
  refine ⟨rfl, rfl, rfl, ?_⟩
  show retryRun (fun j => .error (es j)) 0 maxRetries = _
  rw [retryRun_all_fail es maxRetries 0]
  simp

/-- Witness for C3 (amended) at `n = 2`, `maxRetries = 3`, attempt `j`
failing with error `j`. -/
theorem createRetrySchedule_delays_and_exhaustion_witness :
    1 ≤ 2
    ∧ (createRetrySchedule RetryStrategy.exponential 1000 (2 - 1) = 1000 * 2 ^ (2 - 1)
      ∧ createRetrySchedule RetryStrategy.linear 1000 (2 - 1) = 1000
      ∧ createRetrySchedule RetryStrategy.constant 1000 (2 - 1) = 1000
      ∧ executeWithRetries (A := Unit) (fun j => .error j) 3 = (.error 3, 3 + 1)) :=
  ⟨by decide, createRetrySchedule_delays_and_exhaustion (A := Unit) (fun j => j) 3 2 (by decide)⟩

/-! ## Stale-while-revalidate cache (`src/react/hooks/advanced-hooks/useSWR.ts`)

`fetchData` is embedded as one atomic step (per the cooperative
single-thread model: the synchronous code between the entry of
`fetchData` and the `Effect.runFork` of the network fetch runs to
completion).  The step returns what the call produced — the reused
in-flight promise, the cached value, or a newly forked background
fetch — together with the updated hook/cache state.  The `isLoading`
bookkeeping (`setIsLoading(data === undefined)`) is not modelled: no
claim depends on it. -/

/-- A `globalCache` entry: `{ data, timestamp }`. -/
structure CacheEntry (A : Type) where
  data : A
  timestamp : Int
deriving DecidableEq

/-- The `useSWR` options relevant to fetching (source defaults:
`staleTime` 5 min, `cacheTime` 30 min, `revalidateIfStale` true,
`dedupingInterval` 2000 ms). -/
structure SWRConfig where
  key : String
  staleTime : Int := 5 * 60 * 1000
  cacheTime : Int := 30 * 60 * 1000
  revalidateIfStale : Bool := true
  dedupingInterval : Int := 2000
deriving DecidableEq

/-- The mutable state `fetchData` reads and writes: the shared
`globalCache`, the `isFetchingRef` / `lastPromiseRef` flags, and the
hook's `data` / `error` / `isValidating` state. -/
structure SWRState (A E : Type) where
  globalCache : JsObj (CacheEntry A)
  isFetching : Bool
  hasLastPromise : Bool
  data : Option A
  error : Option E
  isValidating : Bool
deriving DecidableEq

/-- What one `fetchData` call produced. -/
inductive FetchOutcome (A : Type) where
  | dedupedPromise
  | cachedValue (v : A)
  | fetchStarted (staleData : Option A)
deriving DecidableEq

/-- The tail of `fetchData` once a network fetch is issued:
`setIsValidating(true); isFetchingRef.current = true;` fork the fetch
effect and store `lastPromiseRef`. -/
def startFetch {A E : Type} (st : SWRState A E) (staleData : Option A) :
    FetchOutcome A × SWRState A E :=
  (.fetchStarted staleData,
    { st with isValidating := true, isFetching := true, hasLastPromise := true })

/-- `fetchData` (synchronous part, `useSWR.ts` lines 271–340):
1. dedup guard: `if (isFetchingRef.current && lastPromiseRef.current &&
   dedupingInterval > 0) return lastPromiseRef.current;`
2. `getFromCache()`: absent, or older than `cacheTime` (purged) → miss;
3. on a hit, `setData(value); setError(undefined);` and if
   `dataAge < staleTime || !revalidateIfStale`, return the cached value;
4. otherwise fork one background fetch. -/
def fetchData {A E : Type} (cfg : SWRConfig) (now : Int) (st : SWRState A E) :
    FetchOutcome A × SWRState A E :=
  if st.isFetching && st.hasLastPromise && decide (cfg.dedupingInterval > 0) then
    (.dedupedPromise, st)
  else
    match objGet st.globalCache cfg.key with
    | none => startFetch st none
    | some entry =>
      if now - entry.timestamp > cfg.cacheTime then
        startFetch { st with globalCache := objDelete st.globalCache cfg.key } none
      else
        let st1 := { st with data := some entry.data, error := none }
        if now - entry.timestamp < cfg.staleTime || !cfg.revalidateIfStale then
          (.cachedValue entry.data, st1)
        else
          startFetch st1 (some entry.data)

/-- How many underlying fetches of the wrapped effect a `fetchData` call
forks. -/
def fetchesIssued {A : Type} : FetchOutcome A → Nat
  | .fetchStarted _ => 1
  | _ => 0

theorem fetchStarted_sets_inflight {A E : Type} (cfg : SWRConfig) (now : Int)
    (st st' : SWRState A E) (staleData : Option A)
    (h : fetchData cfg now st = (.fetchStarted staleData, st')) :
    st'.isFetching = true ∧ st'.hasLastPromise = true := by
  unfold fetchData at h
  split at h
  · cases h
  · split at h
    · cases h
      exact ⟨rfl, rfl⟩
    · split at h
      · cases h
        exact ⟨rfl, rfl⟩
      · split at h
        · cases h
        · cases h
          exact ⟨rfl, rfl⟩

/-- C5: with no fetch in flight, a cache hit younger than `cacheTime`
(i) whose age is under `staleTime`, or any hit when `revalidateIfStale`
is false, returns the cached value with no underlying fetch issued and
only `data`/`error` updated; (ii) a hit at least `staleTime` old (with
`revalidateIfStale` on) sets the stale cached value as `data`
immediately and forks exactly one background revalidation fetch. -/
theorem fetchData_staleness {A E : Type} (cfg : SWRConfig) (now : Int)
    (st : SWRState A E) (entry : CacheEntry A)
    (hflight : st.isFetching = false)
    (hhit : objGet st.globalCache cfg.key = some entry)
    (hfresh : now - entry.timestamp ≤ cfg.cacheTime) :
    ((now - entry.timestamp < cfg.staleTime ∨ cfg.revalidateIfStale = false) →
      fetchData cfg now st
        = (.cachedValue entry.data, { st with data := some entry.data, error := none })
      ∧ fetchesIssued (fetchData cfg now st).1 = 0)
    ∧ (cfg.staleTime ≤ now - entry.timestamp → cfg.revalidateIfStale = true →
      (fetchData cfg now st).1 = .fetchStarted (some entry.data)
      ∧ fetchesIssued (fetchData cfg now st).1 = 1
      ∧ (fetchData cfg now st).2.data = some entry.data) := by
  have hdedup : (st.isFetching && st.hasLastPromise && decide (cfg.dedupingInterval > 0)) = false := by
    rw [hflight]
    rfl
  have hnoexp : ¬ (now - entry.timestamp > cfg.cacheTime) := by omega
  constructor
  · intro hcase
    have hcond : (now - entry.timestamp < cfg.staleTime || !cfg.revalidateIfStale) = true := by
      rcases hcase with hc | hc
      · simp [hc]
      · simp [hc]
    have : fetchData cfg now st
        = (.cachedValue entry.data, { st with data := some entry.data, error := none }) := by
      unfold fetchData
      simp only [hdedup, Bool.false_eq_true, if_false, hhit]
      rw [if_neg hnoexp, if_pos hcond]
    exact ⟨this, by rw [this]; rfl⟩
  · intro hstale hreval
    have hcond : ¬ ((now - entry.timestamp < cfg.staleTime || !cfg.revalidateIfStale) = true) := by
      simp [hreval]
      omega
    have : fetchData cfg now st
        = startFetch { st with data := some entry.data, error := none } (some entry.data) := by
      unfold fetchData
      simp only [hdedup, Bool.false_eq_true, if_false, hhit]
      rw [if_neg hnoexp, if_neg hcond]
    rw [this]
    exact ⟨rfl, rfl, rfl⟩

/-- Witness for C5: a concrete state with one cache entry, exercised
both under `staleTime` (fresh hit) — instantiated here with age 0 —
whose fresh branch applies, and the stale branch vacuously. -/
theorem fetchData_staleness_witness :
    ((0 - 0 < (5 * 60 * 1000 : Int) ∨ true = false) →
      fetchData { key := "k" } 0
          (⟨[("k", ⟨7, 0⟩)], false, false, none, none, false⟩ : SWRState Nat Nat)
        = (.cachedValue 7, { (⟨[("k", ⟨7, 0⟩)], false, false, none, none, false⟩ : SWRState Nat Nat) with
            data := some 7, error := none })
      ∧ fetchesIssued (fetchData { key := "k" } 0
          (⟨[("k", ⟨7, 0⟩)], false, false, none, none, false⟩ : SWRState Nat Nat)).1 = 0)
    ∧ ((5 * 60 * 1000 : Int) ≤ 0 - 0 → true = true →
      (fetchData { key := "k" } 0
          (⟨[("k", ⟨7, 0⟩)], false, false, none, none, false⟩ : SWRState Nat Nat)).1
        = .fetchStarted (some 7)
      ∧ fetchesIssued (fetchData { key := "k" } 0
          (⟨[("k", ⟨7, 0⟩)], false, false, none, none, false⟩ : SWRState Nat Nat)).1 = 1
      ∧ (fetchData { key := "k" } 0
          (⟨[("k", ⟨7, 0⟩)], false, false, none, none, false⟩ : SWRState Nat Nat)).2.data = some 7) :=
  fetchData_staleness { key := "k" } 0
    (⟨[("k", ⟨7, 0⟩)], false, false, none, none, false⟩ : SWRState Nat Nat)
    ⟨7, 0⟩ rfl rfl (by decide)

/-- C6: two fetch requests for the same key issued within
`dedupingInterval` of each other while the first fetch is still in
flight execute exactly one underlying fetch: the second call returns the
in-flight promise (`lastPromiseRef`) untouched instead of forking. -/
theorem fetchData_dedup {A E : Type} (cfg : SWRConfig) (st st1 : SWRState A E)
    (t1 t2 : Int) (staleData : Option A)
    (hdedup : 0 < cfg.dedupingInterval)
    (hwithin : t2 - t1 < cfg.dedupingInterval)
    (hfirst : fetchData cfg t1 st = (.fetchStarted staleData, st1)) :
    fetchData cfg t2 st1 = (.dedupedPromise, st1)
    ∧ fetchesIssued (fetchData cfg t1 st).1
        + fetchesIssued (fetchData cfg t2 st1).1 = 1 := by
  obtain ⟨hf, hp⟩ := fetchStarted_sets_inflight cfg t1 st st1 staleData hfirst
  have hsecond : fetchData cfg t2 st1 = (.dedupedPromise, st1) := by
    unfold fetchData
    rw [hf, hp]
    simp [hdedup]
  refine ⟨hsecond, ?_⟩
  rw [hfirst, hsecond]
  rfl

/-- Witness for C6: a cache-miss first call at `t = 0`, a second call at
`t = 1` with the default 2000 ms deduping interval. -/
theorem fetchData_dedup_witness :
    fetchData { key := "k" } 1
        (fetchData { key := "k" } 0
          (⟨[], false, false, none, none, false⟩ : SWRState Nat Nat)).2
      = (.dedupedPromise,
         (fetchData { key := "k" } 0
           (⟨[], false, false, none, none, false⟩ : SWRState Nat Nat)).2)
    ∧ fetchesIssued (fetchData { key := "k" } 0
          (⟨[], false, false, none, none, false⟩ : SWRState Nat Nat)).1
        + fetchesIssued (fetchData { key := "k" } 1
            (fetchData { key := "k" } 0
              (⟨[], false, false, none, none, false⟩ : SWRState Nat Nat)).2).1 = 1 :=
  fetchData_dedup { key := "k" }
    (⟨[], false, false, none, none, false⟩ : SWRState Nat Nat)
    (⟨[], true, true, none, none, true⟩ : SWRState Nat Nat)
    0 1 none (by decide) (by decide) (by decide)

/-! ## Prioritized effect scheduler
(`src/react/hooks/advanced-hooks/usePrioritizedEffects.ts`)

The scheduler's mutable refs (`effectQueueRef`, `runningEffectsRef`,
`resourcesRef`, `isProcessing`) form the state record below; the
asynchronous units themselves are abstracted away — their settlement
re-enters through the fiber-completion handlers (`handleEffectSuccess` /
`handleEffectError`), whose argument is the JS settlement value
(`Option A`: `none` models an `undefined` result). -/

/-- `enum PriorityLevel { High = 0, Medium = 5, Low = 10 }`. -/
inductive PriorityLevel where
  | High
  | Medium
  | Low
deriving DecidableEq

def PriorityLevel.toInt : PriorityLevel → Int
  | .High => 0
  | .Medium => 5
  | .Low => 10

/-- `Priority { level, weight }` (numeric values). -/
structure Priority where
  level : Int
  weight : Int
deriving DecidableEq

/-- One enqueued unit (its `effect` payload abstracted away). -/
structure PrioritizedEffect where
  id : String
  priority : Priority
  dependencies : List String
deriving DecidableEq

/-- `Resource<A, E>`. -/
structure Resource (A E : Type) where
  id : String
  result : Option A
  error : Option E
  isLoading : Bool
  dependencies : List String
  priority : Priority
deriving DecidableEq

/-- `enum ResourceState`. -/
inductive ResourceState where
  | NotStarted
  | Loading
  | Success
  | Error
deriving DecidableEq

/-- The scheduler's per-instance mutable state. -/
structure SchedulerState (A E : Type) where
  effectQueue : List PrioritizedEffect
  runningEffects : List String
  resources : JsObj (Resource A E)
  isProcessing : Bool
deriving DecidableEq

/-- `getResourceState(id)`: `NotStarted` when absent; `Loading` while
`isLoading`; `Error` when `resource.error !== undefined`; `Success` when
`resource.result !== undefined`; otherwise `NotStarted`. -/
def getResourceState {A E : Type} (resources : JsObj (Resource A E)) (id : String) :
    ResourceState :=
  match objGet resources id with
  | none => .NotStarted
  | some r =>
    if r.isLoading then .Loading
    else if r.error.isSome then .Error
    else if r.result.isSome then .Success
    else .NotStarted

/-- `areDependenciesReady(dependencies)`: every dependency's resource
state is `Success`. -/
def areDependenciesReady {A E : Type} (resources : JsObj (Resource A E))
    (dependencies : List String) : Bool :=
  dependencies.all (fun depId => decide (getResourceState resources depId = .Success))

/-- The order the sort comparator
`(a, b) => { const levelDiff = a.priority.level - b.priority.level;
             if (levelDiff !== 0) return levelDiff;
             return b.priority.weight - a.priority.weight; }`
induces: `a` sorts no later than `b`. -/
def priorityLE (a b : PrioritizedEffect) : Prop :=
  a.priority.level < b.priority.level
  ∨ (a.priority.level = b.priority.level ∧ b.priority.weight ≤ a.priority.weight)

instance priorityLE.decRel : DecidableRel priorityLE := fun a b => by
  unfold priorityLE
  infer_instance

instance priorityLE.isTotal : IsTotal PrioritizedEffect priorityLE :=
  ⟨by intro a b; unfold priorityLE; omega⟩

instance priorityLE.isTrans : IsTrans PrioritizedEffect priorityLE :=
  ⟨by intro a b c; unfold priorityLE; omega⟩

/-- `[...effectQueueRef.current].sort(comparator)`: `Array.prototype.sort`
is stable (ES2019), and the stable sorted permutation for the comparator's
total preorder is unique, so it equals stable insertion sort. -/
def sortQueue (queue : List PrioritizedEffect) : List PrioritizedEffect :=
  List.insertionSort priorityLE queue

/-- The scan condition of `processNextEffect`'s selection loop: skip
units that are already running or whose dependencies are not ready. -/
def eligible {A E : Type} (st : SchedulerState A E) (e : PrioritizedEffect) : Bool :=
  !st.runningEffects.contains e.id && areDependenciesReady st.resources e.dependencies

/-- `processNextEffect()`: below the concurrency limit, sort the queue by
(level ascending, weight descending), take the first not-running unit
whose dependencies are all `Success`, remove it from the queue, add it to
the running set, mark its resource `Loading` (creating it if absent), and
fork its effect.  Returns the started unit, if any. -/
def processNextEffect {A E : Type} (conc : Nat) (st : SchedulerState A E) :
    SchedulerState A E × Option PrioritizedEffect :=
  if st.runningEffects.length ≥ conc then (st, none)
  else
    match (sortQueue st.effectQueue).find? (eligible st) with
    | none => (st, none)
    | some e =>
      let resource : Resource A E :=
        match objGet st.resources e.id with
        | some r => { r with isLoading := true }
        | none => { id := e.id, result := none, error := none, isLoading := true,
                    dependencies := e.dependencies, priority := e.priority }
      ({ st with
          effectQueue := st.effectQueue.filter (fun x => decide (x.id ≠ e.id)),
          runningEffects := st.runningEffects ++ [e.id],
          resources := objSet st.resources e.id resource },
       some e)

/-- The `for (let j = 0; j < concurrencyRef.current; j++) processNextEffect();`
loop run by `start` and the completion handlers. -/
def processLoop {A E : Type} (conc : Nat) : Nat → SchedulerState A E → SchedulerState A E
  | 0, st => st
  | n + 1, st => processLoop conc n (processNextEffect conc st).1

/-- `start()`: set `isProcessing` and admit up to `concurrency` units. -/
def start {A E : Type} (conc : Nat) (st : SchedulerState A E) : SchedulerState A E :=
  processLoop conc conc { st with isProcessing := true }

/-- `addEffect(effectItem)`: push onto the queue, create the resource
entry if absent (not loading), and process once while processing. -/
def addEffect {A E : Type} (conc : Nat) (st : SchedulerState A E)
    (e : PrioritizedEffect) : SchedulerState A E :=
  let st1 : SchedulerState A E :=
    { st with
        effectQueue := st.effectQueue ++ [e],
        resources :=
          match objGet st.resources e.id with
          | some _ => st.resources
          | none => objSet st.resources e.id
              { id := e.id, result := none, error := none, isLoading := false,
                dependencies := e.dependencies, priority := e.priority } }
  if st1.isProcessing then (processNextEffect conc st1).1 else st1

/-- The fiber-completion `.then` handler: store the settlement value in
`resource.result` (an `undefined` result stays `undefined`), clear
`isLoading`, leave the running set, then — while processing — admit up to
`concurrency` more units. -/
def handleEffectSuccess {A E : Type} (conc : Nat) (st : SchedulerState A E)
    (id : String) (result : Option A) : SchedulerState A E :=
  let st1 : SchedulerState A E :=
    match objGet st.resources id with
    | some r =>
      { st with resources := objSet st.resources id { r with result := result, isLoading := false } }
    | none => st
  let st2 : SchedulerState A E :=
    { st1 with runningEffects := st1.runningEffects.filter (fun x => decide (x ≠ id)) }
  if st2.isProcessing then processLoop conc conc st2 else st2

/-- The fiber-completion `.catch` handler. -/
def handleEffectError {A E : Type} (conc : Nat) (st : SchedulerState A E)
    (id : String) (err : E) : SchedulerState A E :=
  let st1 : SchedulerState A E :=
    match objGet st.resources id with
    | some r =>
      { st with resources := objSet st.resources id { r with error := some err, isLoading := false } }
    | none => st
  let st2 : SchedulerState A E :=
    { st1 with runningEffects := st1.runningEffects.filter (fun x => decide (x ≠ id)) }
  if st2.isProcessing then processLoop conc conc st2 else st2

theorem find?_pairwise_min {α : Type} {le : α → α → Prop} [IsTotal α le] {p : α → Bool} :
    ∀ {l : List α} {u : α}, l.Pairwise le → l.find? p = some u →
      ∀ v ∈ l, p v = true → le u v := by
  intro l
  induction l with
  | nil => intro u _ hfind; cases hfind
  | cons a t ih =>
    intro u hpw hfind v hv hp
    cases hpa : p a with
    | true =>
      rw [List.find?_cons_of_pos t hpa] at hfind
      have hua : u = a := by injection hfind with h; exact h.symm
      subst hua
      rcases List.mem_cons.mp hv with hva | hvt
      · subst hva
        rcases IsTotal.total (r := le) v v with h | h <;> exact h
      · exact (List.pairwise_cons.mp hpw).1 v hvt
    | false =>
      rw [List.find?_cons_of_neg t (by simp [hpa])] at hfind
      rcases List.mem_cons.mp hv with hva | hvt
      · subst hva
        rw [hp] at hpa
        cases hpa
      · exact ih (List.pairwise_cons.mp hpw).2 hfind v hvt hp

/-- What a successful selection by `processNextEffect` guarantees: the
started unit was queued, is eligible, and sorts no later than every
eligible queued unit. -/
theorem processNextEffect_spec {A E : Type} (conc : Nat) (st : SchedulerState A E)
    (u : PrioritizedEffect) (h : (processNextEffect conc st).2 = some u) :
    u ∈ st.effectQueue ∧ eligible st u = true
    ∧ ∀ v ∈ st.effectQueue, eligible st v = true → priorityLE u v := by
  unfold processNextEffect at h
  split at h
  · cases h
  · revert h
    cases hfind : (sortQueue st.effectQueue).find? (eligible st) with
    | none => intro h; cases h
    | some e =>
      intro h
      have hue : e = u := by injection h with h'
      subst hue
      have hmem : e ∈ sortQueue st.effectQueue := List.mem_of_find?_eq_some hfind
      have hmemq : e ∈ st.effectQueue := (List.mem_insertionSort priorityLE).mp hmem
      have helig : eligible st e = true := List.find?_some hfind
      refine ⟨hmemq, helig, ?_⟩
      intro v hv hvelig
      have hsorted : (sortQueue st.effectQueue).Pairwise priorityLE :=
        List.sorted_insertionSort priorityLE st.effectQueue
      exact find?_pairwise_min hsorted hfind v
        ((List.mem_insertionSort priorityLE).mpr hv) hvelig

/-- `processNextEffect` never touches the resource of an id that is not
in the queue, and keeps the queue free of that id. -/
theorem processNextEffect_preserves {A E : Type} (conc : Nat) (st : SchedulerState A E)
    (id : String) (hq : ∀ e ∈ st.effectQueue, e.id ≠ id) :
    objGet ((processNextEffect conc st).1).resources id = objGet st.resources id
    ∧ ∀ e ∈ ((processNextEffect conc st).1).effectQueue, e.id ≠ id := by
  unfold processNextEffect
  split
  · exact ⟨rfl, hq⟩
  · cases hfind : (sortQueue st.effectQueue).find? (eligible st) with
    | none => exact ⟨rfl, hq⟩
    | some e =>
      have hmemq : e ∈ st.effectQueue :=
        (List.mem_insertionSort priorityLE).mp (List.mem_of_find?_eq_some hfind)
      have heid : e.id ≠ id := hq e hmemq
      constructor
      · show objGet (objSet st.resources e.id _) id = objGet st.resources id
        rw [objGet_objSet]
        exact if_neg (fun hcontra => heid hcontra.symm)
      · intro x hx
        exact hq x (List.mem_of_mem_filter hx)

theorem processLoop_preserves {A E : Type} (conc : Nat) (id : String) :
    ∀ (n : Nat) (st : SchedulerState A E), (∀ e ∈ st.effectQueue, e.id ≠ id) →
      objGet ((processLoop conc n st).resources) id = objGet st.resources id
      ∧ ∀ e ∈ (processLoop conc n st).effectQueue, e.id ≠ id := by
  intro n
  induction n with
  | zero => intro st hq; exact ⟨rfl, hq⟩
  | succ n' ih =>
    intro st hq
    obtain ⟨hres, hq'⟩ := processNextEffect_preserves conc st id hq
    obtain ⟨hres2, hq2⟩ := ih (processNextEffect conc st).1 hq'
    exact ⟨hres2.trans hres, hq2⟩

/-- Unit A of the spec's scheduler scenario: level High, weight 100, no
dependencies. -/
def unitA : PrioritizedEffect := ⟨"A", ⟨PriorityLevel.High.toInt, 100⟩, []⟩

/-- Unit B: level High, weight 50, depends on A. -/
def unitB : PrioritizedEffect := ⟨"B", ⟨PriorityLevel.High.toInt, 50⟩, ["A"]⟩

/-- Unit C: level Medium, no dependencies. -/
def unitC : PrioritizedEffect := ⟨"C", ⟨PriorityLevel.Medium.toInt, 0⟩, []⟩

/-- A freshly mounted scheduler (nothing queued, not processing). -/
def schedInit : SchedulerState Nat Nat := ⟨[], [], [], false⟩

/-- A, B, C enqueued, then `start()` with concurrency 2. -/
def schedAfterStart : SchedulerState Nat Nat :=
  start 2 (addEffect 2 (addEffect 2 (addEffect 2 schedInit unitA) unitB) unitC)

/-- ... then A's effect settles successfully (with a defined result). -/
def schedAfterASuccess : SchedulerState Nat Nat :=
  handleEffectSuccess 2 schedAfterStart "A" (some 1)

/-- C4: whenever `processNextEffect` starts a unit, that unit is — among
queued units that are not running and whose every declared dependency is
`Success` — the one with the numerically lowest `priority.level`, ties
broken by the highest `priority.weight`; and in the A/B/C scenario with
concurrency 2, A and C start first (B stays queued, blocked on A), and B
starts exactly when A succeeds. -/
theorem scheduler_priority_dependency :
    (∀ (A E : Type) (conc : Nat) (st : SchedulerState A E) (u : PrioritizedEffect),
      (processNextEffect conc st).2 = some u →
      ∀ v ∈ st.effectQueue, eligible st v = true →
        u.priority.level < v.priority.level
        ∨ (u.priority.level = v.priority.level ∧ v.priority.weight ≤ u.priority.weight))
    ∧ schedAfterStart.runningEffects = ["A", "C"]
    ∧ schedAfterStart.effectQueue = [unitB]
    ∧ schedAfterASuccess.runningEffects = ["C", "B"]
    ∧ schedAfterASuccess.effectQueue = [] := by
  refine ⟨?_, by decide, by decide, by decide, by decide⟩
  intro A E conc st u h v hv hvelig
  exact (processNextEffect_spec conc st u h).2.2 v hv hvelig

/-- Witness for C4's general part: in a scheduler holding A, B, C (all
resources fresh), the unit started is A, and it sorts before the other
eligible unit C. -/
theorem scheduler_priority_dependency_witness :
    (processNextEffect 2
        (⟨[unitA, unitB, unitC], [],
          [("A", ⟨"A", none, none, false, [], ⟨0, 100⟩⟩),
           ("B", ⟨"B", none, none, false, ["A"], ⟨0, 50⟩⟩),
           ("C", ⟨"C", none, none, false, [], ⟨5, 0⟩⟩)], true⟩ : SchedulerState Nat Nat)).2
      = some unitA
    ∧ (unitA.priority.level < unitC.priority.level
      ∨ (unitA.priority.level = unitC.priority.level
        ∧ unitC.priority.weight ≤ unitA.priority.weight)) :=
  ⟨by decide,
   scheduler_priority_dependency.1 Nat Nat 2
     (⟨[unitA, unitB, unitC], [],
       [("A", ⟨"A", none, none, false, [], ⟨0, 100⟩⟩),
        ("B", ⟨"B", none, none, false, ["A"], ⟨0, 50⟩⟩),
        ("C", ⟨"C", none, none, false, [], ⟨5, 0⟩⟩)], true⟩ : SchedulerState Nat Nat)
     unitA (by decide) unitC (by decide) (by decide)⟩

/-- C10: when a running unit's effect settles successfully with the
value `undefined`, the completion handler leaves its resource with an
undefined `result`, so `getResourceState` reports `NotStarted` (not
`Success`: success requires a defined `result` and no `error`), every
dependency list containing the unit is not ready, and no unit declaring
it as a dependency is ever selected to start from the resulting state. -/
theorem scheduler_undefined_result_not_success :
    ∀ (A E : Type) (conc : Nat) (st : SchedulerState A E) (id : String) (r : Resource A E),
      objGet st.resources id = some r → r.error = none →
      (∀ e ∈ st.effectQueue, e.id ≠ id) →
      getResourceState (handleEffectSuccess conc st id none).resources id = .NotStarted
      ∧ (∀ deps : List String, id ∈ deps →
          areDependenciesReady (handleEffectSuccess conc st id none).resources deps = false)
      ∧ (∀ (conc2 : Nat) (u : PrioritizedEffect),
          (processNextEffect conc2 (handleEffectSuccess conc st id none)).2 = some u →
          id ∉ u.dependencies) := by
  intro A E conc st id r hres herr hq
  have hkey : objGet (handleEffectSuccess conc st id none).resources id
      = some { r with result := none, isLoading := false } := by
    unfold handleEffectSuccess
    simp only [hres]
    split
    · rw [(processLoop_preserves conc id conc
        ({ effectQueue := st.effectQueue,
           runningEffects := List.filter (fun x => decide (x ≠ id)) st.runningEffects,
           resources := objSet st.resources id
             { r with result := none, isLoading := false },
           isProcessing := st.isProcessing } : SchedulerState A E) hq).1]
      show objGet (objSet st.resources id _) id = _
      rw [objGet_objSet, if_pos rfl]
    · show objGet (objSet st.resources id _) id = _
      rw [objGet_objSet, if_pos rfl]
  have hns : getResourceState (handleEffectSuccess conc st id none).resources id
      = .NotStarted := by
    unfold getResourceState
    rw [hkey]
    simp [herr]
  have hnotready : ∀ deps : List String, id ∈ deps →
      areDependenciesReady (handleEffectSuccess conc st id none).resources deps = false := by
    intro deps hdep
    cases hall : areDependenciesReady (handleEffectSuccess conc st id none).resources deps with
    | false => rfl
    | true =>
      exfalso
      unfold areDependenciesReady at hall
      have hpred := List.all_eq_true.mp hall id hdep
      have hsucc := of_decide_eq_true hpred
      rw [hns] at hsucc
      exact ResourceState.noConfusion hsucc
  refine ⟨hns, hnotready, ?_⟩
  intro conc2 u hu hmem
  have helig := (processNextEffect_spec conc2 _ u hu).2.1
  unfold eligible at helig
  simp only [Bool.and_eq_true] at helig
  have hready := helig.2
  have hfalse := hnotready u.dependencies hmem
  rw [hready] at hfalse
  cases hfalse

/-- Witness for C10: a single running unit X settles with `undefined`;
its state is `NotStarted` and a dependency list naming it is not ready. -/
theorem scheduler_undefined_result_not_success_witness :
    getResourceState (handleEffectSuccess 1
        (⟨[], ["X"], [("X", ⟨"X", none, none, true, [], ⟨0, 0⟩⟩)], true⟩ : SchedulerState Nat Nat)
        "X" none).resources "X" = ResourceState.NotStarted
    ∧ areDependenciesReady (handleEffectSuccess 1
        (⟨[], ["X"], [("X", ⟨"X", none, none, true, [], ⟨0, 0⟩⟩)], true⟩ : SchedulerState Nat Nat)
        "X" none).resources ["X"] = false :=
  ⟨(scheduler_undefined_result_not_success Nat Nat 1
      (⟨[], ["X"], [("X", ⟨"X", none, none, true, [], ⟨0, 0⟩⟩)], true⟩ : SchedulerState Nat Nat)
      "X" ⟨"X", none, none, true, [], ⟨0, 0⟩⟩ (by decide) (by decide) (by decide)).1,
   (scheduler_undefined_result_not_success Nat Nat 1
      (⟨[], ["X"], [("X", ⟨"X", none, none, true, [], ⟨0, 0⟩⟩)], true⟩ : SchedulerState Nat Nat)
      "X" ⟨"X", none, none, true, [], ⟨0, 0⟩⟩ (by decide) (by decide) (by decide)).2.1
     ["X"] (by decide)⟩

/-! ## Reducer+effect coordinator
(`src/react/hooks/advanced-hooks/useReducerWithEffect.ts`)

`dispatch` first calls `baseDispatch(action)` — React's `useReducer`
dispatch, which only SCHEDULES the reducer update; the `state` value is
committed at the next render, and the `useEffect` that copies it into
`stateRef` runs after that.  Hence, inside the same `dispatch` call,
`stateRef.current` still holds the pre-dispatch committed state, and it
is that value which is passed to `shouldRunEffect` and `effectFactory`.
The model assumes a configured `effectFactory` (the code's
`shouldRunEffectRef.current && effectFactoryRef.current &&` guard is the
non-null check); a factory returning `null` is `Option.none`. -/

/-- `ReducerEffectAction<T>`: `{ type, payload, runEffect? }`. -/
structure ReducerEffectAction (P : Type) where
  type : String
  payload : P
  runEffect : Option Bool := none
deriving DecidableEq

/-- The default predicate: `(_, action) => !!action.runEffect`. -/
def defaultShouldRunEffect {S P : Type} (_state : S) (action : ReducerEffectAction P) : Bool :=
  action.runEffect.getD false

/-- The coordinator's state: the committed reducer state (what
`stateRef.current` holds) and the in-flight fiber, if any. -/
structure CoordinatorState (S Eff : Type) where
  committedState : S
  fiber : Option Eff
deriving DecidableEq

/-- Observable record of one `dispatch(action)` call. -/
structure DispatchTrace (S A Eff : Type) where
  predicateState : S
  predicateResult : Bool
  interruptedPrevious : Bool
  factoryArgs : Option (S × A)
  startedEffect : Option Eff
deriving DecidableEq

/-- `dispatch(action)`: schedule the reducer update (committed on the
next render), then — with `stateRef.current` still the pre-dispatch
state — evaluate `shouldRunEffect(stateRef.current, action)`; when it
holds, interrupt any in-flight fiber, call
`effectFactory(stateRef.current, action)`, and fork the produced effect
as the new fiber. -/
def dispatch {S A Eff : Type} (reducer : S → A → S) (shouldRunEffect : S → A → Bool)
    (effectFactory : S → A → Option Eff) (st : CoordinatorState S Eff) (action : A) :
    CoordinatorState S Eff × DispatchTrace S A Eff :=
  let newState := reducer st.committedState action
  let refState := st.committedState
  if shouldRunEffect refState action then
    let interrupted := st.fiber.isSome
    match effectFactory refState action with
    | some e =>
      ({ committedState := newState, fiber := some e },
       ⟨refState, true, interrupted, some (refState, action), some e⟩)
    | none =>
      ({ committedState := newState, fiber := st.fiber },
       ⟨refState, true, interrupted, some (refState, action), none⟩)
  else
    ({ committedState := newState, fiber := st.fiber },
     ⟨refState, false, false, none, none⟩)

/-- C8 counterexample: with reducer `s + 1` from state 0 and predicate
"state equals 1", the claim (predicate evaluated over the NEW state,
which is 1) demands the effect run; the code evaluates the predicate
over the pre-dispatch state 0, so it is false and no unit starts. -/
theorem dispatch_newstate_counterexample :
    (dispatch (fun (s : Nat) (_ : Nat) => s + 1) (fun s _ => s == 1)
        (fun _ _ => some ()) ⟨0, none⟩ 0).2.predicateState
      ≠ (fun (s : Nat) (_ : Nat) => s + 1) 0 0
    ∧ (fun (s : Nat) (_ : Nat) => s == 1) ((fun (s : Nat) (_ : Nat) => s + 1) 0 0) 0 = true
    ∧ (dispatch (fun (s : Nat) (_ : Nat) => s + 1) (fun s _ => s == 1)
        (fun _ _ => some ()) ⟨0, none⟩ 0).2.predicateResult = false
    ∧ (dispatch (fun (s : Nat) (_ : Nat) => s + 1) (fun s _ => s == 1)
        (fun _ _ => some ()) ⟨0, none⟩ 0).2.startedEffect = none := by
  refine ⟨?_, rfl, rfl, rfl⟩
  intro h
  exact absurd h (by decide)

/-- C8 (amended): `dispatch(action)` applies the reducer to produce the
next committed state, and evaluates the predicate over the PRE-dispatch
committed state (the value `stateRef.current` holds during the call, not
the reducer's output) together with the action; when the predicate holds
it interrupts any in-flight unit, passes that same pre-dispatch state
and the action to the factory, and an effect the factory produces
becomes the new in-flight unit.  The default predicate ignores the state
entirely and holds exactly when the action declares `runEffect: true`. -/
theorem dispatch_predicate_and_effect :
    (∀ (S A Eff : Type) (reducer : S → A → S) (shouldRun : S → A → Bool)
      (factory : S → A → Option Eff) (st : CoordinatorState S Eff) (action : A),
      (dispatch reducer shouldRun factory st action).1.committedState
          = reducer st.committedState action
      ∧ (dispatch reducer shouldRun factory st action).2.predicateState = st.committedState
      ∧ (dispatch reducer shouldRun factory st action).2.predicateResult
          = shouldRun st.committedState action
      ∧ (shouldRun st.committedState action = true →
          (dispatch reducer shouldRun factory st action).2.interruptedPrevious = st.fiber.isSome
          ∧ (dispatch reducer shouldRun factory st action).2.factoryArgs
              = some (st.committedState, action)
          ∧ ∀ e, factory st.committedState action = some e →
              (dispatch reducer shouldRun factory st action).1.fiber = some e))
    ∧ (∀ (S P : Type) (s t : S) (a : ReducerEffectAction P),
        defaultShouldRunEffect s a = defaultShouldRunEffect t a
        ∧ (defaultShouldRunEffect s a = true ↔ a.runEffect = some true)) := by
  constructor
  · intro S A Eff reducer shouldRun factory st action
    cases hrun : shouldRun st.committedState action with
    | false =>
      refine ⟨?_, ?_, ?_, ?_⟩ <;> simp [dispatch, hrun]
    | true =>
      cases hfact : factory st.committedState action with
      | none =>
        refine ⟨?_, ?_, ?_, fun _ => ⟨?_, ?_, ?_⟩⟩ <;> simp [dispatch, hrun, hfact]
      | some e =>
        refine ⟨?_, ?_, ?_, fun _ => ⟨?_, ?_, ?_⟩⟩ <;> simp [dispatch, hrun, hfact]
  · intro S P s t a
    refine ⟨rfl, ?_⟩
    cases ha : a.runEffect with
    | none => simp [defaultShouldRunEffect, ha]
    | some b => cases b <;> simp [defaultShouldRunEffect, ha]

/-- Witness for C8 (amended): reducer `s + a` from state 5 with an
in-flight unit, predicate "action equals 3", factory `s + a`; dispatching
3 interrupts, passes `(5, 3)` to the factory, and starts the unit `8`. -/
theorem dispatch_predicate_and_effect_witness :
    (dispatch (fun (s : Nat) (a : Nat) => s + a) (fun _ a => a == 3)
        (fun s a => some (s + a)) ⟨5, some 0⟩ 3).1.fiber = some 8
    ∧ (dispatch (fun (s : Nat) (a : Nat) => s + a) (fun _ a => a == 3)
        (fun s a => some (s + a)) ⟨5, some 0⟩ 3).2.predicateState = 5
    ∧ (dispatch (fun (s : Nat) (a : Nat) => s + a) (fun _ a => a == 3)
        (fun s a => some (s + a)) ⟨5, some 0⟩ 3).2.interruptedPrevious
        = (some 0 : Option Nat).isSome :=
  ⟨((dispatch_predicate_and_effect.1 Nat Nat Nat (fun s a => s + a) (fun _ a => a == 3)
      (fun s a => some (s + a)) ⟨5, some 0⟩ 3).2.2.2 (by decide)).2.2 8 (by decide),
   (dispatch_predicate_and_effect.1 Nat Nat Nat (fun s a => s + a) (fun _ a => a == 3)
      (fun s a => some (s + a)) ⟨5, some 0⟩ 3).2.1,
   ((dispatch_predicate_and_effect.1 Nat Nat Nat (fun s a => s + a) (fun _ a => a == 3)
      (fun s a => some (s + a)) ⟨5, some 0⟩ 3).2.2.2 (by decide)).1⟩

end Zeft
